import Mathlib

/-!
Shallow embedding of the `maybe-atomic` crate (`src/lib.rs`).

The crate's `maybe_atomic_type!` macro generates, for each supported scalar
type, a `#[repr(transparent)]` wrapper holding either an atomic integer
(`#[cfg(feature = "atomic")]`, field `atomic: $atomic`) or a
`Cell<$unsync>` (`#[cfg(not(feature = "atomic"))]`, field `unsync`).
The macro body is identical for every scalar instantiation, so the
embedding is generic over the carried value type `α`; the eleven supported
scalar types are enumerated separately (`Scalar`) with their carrier
types, and claim theorems quantify over them.

The build-time `cfg` choice is modelled as an explicit `Mode` parameter;
each `pub fn` of the macro dispatches to its two `_impl` bodies exactly as
the `cfg` attributes select them.  Rust panics (the atomic backend's
invalid-ordering panics, per `core::sync::atomic` documentation: `load`
panics on `Release`/`AcqRel`, `store` panics on `Acquire`/`AcqRel`,
`swap` accepts every ordering) are modelled as `Option.none`; the plain
backend (`Cell::get`/`Cell::set`/`Cell::replace`) is total and ignores
its ordering argument.  Semantics are single-threaded: a cell state is
the one value it holds.
-/

namespace MaybeAtomic

/-- `core::sync::atomic::Ordering`: the five memory orderings. -/
inductive Ordering : Type where
  | Relaxed : Ordering
  | Acquire : Ordering
  | Release : Ordering
  | AcqRel : Ordering
  | SeqCst : Ordering
deriving DecidableEq, Repr

/-- Orderings accepted by an atomic `load` (panics on `Release`/`AcqRel`). -/
def load_order_valid : Ordering → Bool
  | .Release => false
  | .AcqRel => false
  | _ => true

/-- Orderings accepted by an atomic `store` (panics on `Acquire`/`AcqRel`). -/
def store_order_valid : Ordering → Bool
  | .Acquire => false
  | .AcqRel => false
  | _ => true

/-- The `#[cfg(feature = "atomic")]` backend field (`atomic: $atomic`):
an atomic integer/bool holding one value, single-threaded view. -/
structure AtomicCell (α : Type) : Type where
  value : α
deriving DecidableEq, Repr

/-- `AtomicX::new`. -/
def AtomicCell.new {α : Type} (v : α) : AtomicCell α := ⟨v⟩

/-- `AtomicX::load`: returns the value, or panics (`none`) on an
ordering invalid for loads. -/
def AtomicCell.load {α : Type} (a : AtomicCell α) (order : Ordering) : Option α :=
  if load_order_valid order then some a.value else none

/-- `AtomicX::store`: replaces the value, or panics (`none`) on an
ordering invalid for stores. -/
def AtomicCell.store {α : Type} (_a : AtomicCell α) (val : α) (order : Ordering) :
    Option (AtomicCell α) :=
  if store_order_valid order then some ⟨val⟩ else none

/-- `AtomicX::swap`: returns the old value and stores the new one.
Every ordering is valid for a read-modify-write, so it never panics. -/
def AtomicCell.swap {α : Type} (a : AtomicCell α) (val : α) (_order : Ordering) :
    α × AtomicCell α :=
  (a.value, ⟨val⟩)

/-- Reading through the `&mut` reference of `AtomicX::get_mut`. -/
def AtomicCell.get_mut_read {α : Type} (a : AtomicCell α) : α := a.value

/-- Writing through the `&mut` reference of `AtomicX::get_mut`. -/
def AtomicCell.get_mut_write {α : Type} (_a : AtomicCell α) (val : α) : AtomicCell α := ⟨val⟩

/-- The `#[cfg(not(feature = "atomic"))]` backend field
(`unsync: Cell<$unsync>`): `core::cell::Cell`. -/
structure Cell (α : Type) : Type where
  value : α
deriving DecidableEq, Repr

/-- `Cell::new`. -/
def Cell.new {α : Type} (v : α) : Cell α := ⟨v⟩

/-- `Cell::get`: copies the value out. -/
def Cell.get {α : Type} (c : Cell α) : α := c.value

/-- `Cell::set`: replaces the value. -/
def Cell.set {α : Type} (_c : Cell α) (val : α) : Cell α := ⟨val⟩

/-- `Cell::replace`: stores `val`, returning the previous value. -/
def Cell.replace {α : Type} (c : Cell α) (val : α) : α × Cell α :=
  (c.value, ⟨val⟩)

/-- Reading through the `&mut` reference of `Cell::get_mut`. -/
def Cell.get_mut_read {α : Type} (c : Cell α) : α := c.value

/-- Writing through the `&mut` reference of `Cell::get_mut`. -/
def Cell.get_mut_write {α : Type} (_c : Cell α) (val : α) : Cell α := ⟨val⟩

/-- The build-time `cfg(feature = "atomic")` choice. -/
inductive Mode : Type where
  | atomic : Mode
  | plain : Mode
deriving DecidableEq, Repr

/-- A `MaybeAtomicX` value: `#[repr(transparent)]` over whichever backend
field the `cfg` selects; in either build it holds exactly one value. -/
structure MaybeAtomicCell (α : Type) : Type where
  value : α
deriving DecidableEq, Repr

/-- `new_impl` (both `cfg` bodies delegate to the backend constructor). -/
def new_impl {α : Type} (mode : Mode) (inner : α) : MaybeAtomicCell α :=
  match mode with
  | .atomic => ⟨(AtomicCell.new inner).value⟩
  | .plain => ⟨(Cell.new inner).value⟩

/-- `pub fn new`. -/
def new {α : Type} (mode : Mode) (inner : α) : MaybeAtomicCell α :=
  new_impl mode inner

/-- `load_impl`: atomic build calls `self.atomic.load(order)` (may panic);
plain build calls `self.unsync.get()`, ignoring `order`. -/
def load_impl {α : Type} (mode : Mode) (c : MaybeAtomicCell α) (order : Ordering) :
    Option α :=
  match mode with
  | .atomic => AtomicCell.load ⟨c.value⟩ order
  | .plain => some (Cell.get ⟨c.value⟩)

/-- `pub fn load`. -/
def load {α : Type} (mode : Mode) (c : MaybeAtomicCell α) (order : Ordering) : Option α :=
  load_impl mode c order

/-- `store_impl`: atomic build calls `self.atomic.store(val, order)`
(may panic); plain build calls `self.unsync.set(val)`, ignoring `order`. -/
def store_impl {α : Type} (mode : Mode) (c : MaybeAtomicCell α) (val : α)
    (order : Ordering) : Option (MaybeAtomicCell α) :=
  match mode with
  | .atomic => (AtomicCell.store ⟨c.value⟩ val order).map fun a => ⟨a.value⟩
  | .plain => some ⟨(Cell.set ⟨c.value⟩ val).value⟩

/-- `pub fn store`. -/
def store {α : Type} (mode : Mode) (c : MaybeAtomicCell α) (val : α)
    (order : Ordering) : Option (MaybeAtomicCell α) :=
  store_impl mode c val order

/-- `swap_impl`: atomic build calls `self.atomic.swap(val, order)` (never
panics); plain build calls `self.unsync.replace(val)`, ignoring `order`. -/
def swap_impl {α : Type} (mode : Mode) (c : MaybeAtomicCell α) (val : α)
    (order : Ordering) : α × MaybeAtomicCell α :=
  match mode with
  | .atomic =>
    let p := AtomicCell.swap ⟨c.value⟩ val order
    (p.1, ⟨p.2.value⟩)
  | .plain =>
    let p := Cell.replace ⟨c.value⟩ val
    (p.1, ⟨p.2.value⟩)

/-- `pub fn swap`. -/
def swap {α : Type} (mode : Mode) (c : MaybeAtomicCell α) (val : α)
    (order : Ordering) : α × MaybeAtomicCell α :=
  swap_impl mode c val order

/-- Reading through the reference returned by `pub fn get_mut`
(`get_mut_impl` delegates to the backend's `get_mut` in both builds;
never fails). -/
def get_mut_read {α : Type} (mode : Mode) (c : MaybeAtomicCell α) : α :=
  match mode with
  | .atomic => AtomicCell.get_mut_read ⟨c.value⟩
  | .plain => Cell.get_mut_read ⟨c.value⟩

/-- Writing through the reference returned by `pub fn get_mut`. -/
def get_mut_write {α : Type} (mode : Mode) (c : MaybeAtomicCell α) (val : α) :
    MaybeAtomicCell α :=
  match mode with
  | .atomic => ⟨(AtomicCell.get_mut_write ⟨c.value⟩ val).value⟩
  | .plain => ⟨(Cell.get_mut_write ⟨c.value⟩ val).value⟩

/-- The eleven scalar instantiations of `maybe_atomic_type!`:
`MaybeAtomicBool`, `MaybeAtomicU8` … `MaybeAtomicUsize`,
`MaybeAtomicI8` … `MaybeAtomicIsize`. -/
inductive Scalar : Type where
  | bool : Scalar
  | u8 : Scalar
  | u16 : Scalar
  | u32 : Scalar
  | u64 : Scalar
  | usize : Scalar
  | i8 : Scalar
  | i16 : Scalar
  | i32 : Scalar
  | i64 : Scalar
  | isize : Scalar
deriving DecidableEq, Repr

/-- Values of a signed two's-complement integer of width `w`. -/
@[reducible]
def SignedInt (w : Nat) : Type := {z : Int // -(2 ^ (w - 1)) ≤ z ∧ z < 2 ^ (w - 1)}

/-- The `$unsync` carrier type of each scalar instantiation;
`ptrBits` is the platform pointer width (for `usize`/`isize`). -/
@[reducible]
def Scalar.carrier (ptrBits : Nat) : Scalar → Type
  | .bool => Bool
  | .u8 => Fin (2 ^ 8)
  | .u16 => Fin (2 ^ 16)
  | .u32 => Fin (2 ^ 32)
  | .u64 => Fin (2 ^ 64)
  | .usize => Fin (2 ^ ptrBits)
  | .i8 => SignedInt 8
  | .i16 => SignedInt 16
  | .i32 => SignedInt 32
  | .i64 => SignedInt 64
  | .isize => SignedInt ptrBits

/-- One single-threaded call against a cell: the operations the public
surface offers after construction. -/
inductive Op (α : Type) : Type where
  | load (order : Ordering) : Op α
  | store (val : α) (order : Ordering) : Op α
  | swap (val : α) (order : Ordering) : Op α
  | get_mut_read : Op α
  | get_mut_write (val : α) : Op α
deriving DecidableEq, Repr

/-- Whether an operation's ordering argument is valid for it: loads reject
`Release`/`AcqRel`, stores reject `Acquire`/`AcqRel`; `swap` and the
`get_mut` accesses accept anything. -/
def Op.valid {α : Type} : Op α → Bool
  | .load order => load_order_valid order
  | .store _ order => store_order_valid order
  | _ => true

/-- Run one operation: `none` is a panic; otherwise the call's return
value (`none` for the value-less `store`/`get_mut` write) and the cell
afterwards. -/
def runOp {α : Type} (mode : Mode) (c : MaybeAtomicCell α) :
    Op α → Option (Option α × MaybeAtomicCell α)
  | .load order => (load_impl mode c order).map fun v => (some v, c)
  | .store val order => (store_impl mode c val order).map fun c2 => (none, c2)
  | .swap val order =>
    let p := swap_impl mode c val order
    some (some p.1, p.2)
  | .get_mut_read => some (some (get_mut_read mode c), c)
  | .get_mut_write val => some (none, get_mut_write mode c val)

/-- Run a sequence of operations, collecting each call's return value;
`none` if any call panics. -/
def run {α : Type} (mode : Mode) (c : MaybeAtomicCell α) :
    List (Op α) → Option (List (Option α) × MaybeAtomicCell α)
  | [] => some ([], c)
  | op :: ops =>
    (runOp mode c op).bind fun r =>
      (run mode r.2 ops).map fun rest => (r.1 :: rest.1, rest.2)

/-- A whole single-threaded session: `new(init)` followed by a sequence
of calls on the resulting cell. -/
def run_program {α : Type} (mode : Mode) (init : α) (ops : List (Op α)) :
    Option (List (Option α) × MaybeAtomicCell α) :=
  run mode (new mode init) ops

/-- A sample operation sequence on a `u8` cell with orderings valid for
each operation. -/
def sample_ops : List (Op (Fin (2 ^ 8))) :=
  [Op.load Ordering.Acquire, Op.store 7 Ordering.Release,
   Op.swap 9 Ordering.AcqRel, Op.get_mut_read, Op.get_mut_write 4,
   Op.load Ordering.SeqCst]

theorem runOp_mode_indep {α : Type} (c : MaybeAtomicCell α) (op : Op α)
    (h : Op.valid op = true) :
    runOp Mode.atomic c op = runOp Mode.plain c op := by
  cases op with
  | load order =>
    have hv : load_order_valid order = true := h
    simp [runOp, load_impl, AtomicCell.load, Cell.get, hv]
  | store val order =>
    have hv : store_order_valid order = true := h
    simp [runOp, store_impl, AtomicCell.store, Cell.set, hv]
  | swap val order => rfl
  | get_mut_read => rfl
  | get_mut_write val => rfl

theorem run_mode_indep {α : Type} (c : MaybeAtomicCell α) (ops : List (Op α))
    (h : ∀ op ∈ ops, Op.valid op = true) :
    run Mode.atomic c ops = run Mode.plain c ops := by
  induction ops generalizing c with
  | nil => rfl
  | cons op ops ih =>
    have hop : Op.valid op = true := h op (List.mem_cons_self op ops)
    have hops : ∀ o ∈ ops, Op.valid o = true := fun o ho =>
      h o (List.mem_cons_of_mem op ho)
    simp only [run, runOp_mode_indep c op hop]
    cases hr : runOp Mode.plain c op with
    | none => rfl
    | some r => simp only [Option.some_bind, ih r.2 hops]

/-- C1: mode transparency — for every supported scalar type and every
single-threaded sequence of `new`/`load`/`store`/`swap`/`get_mut`
operations with fixed arguments and valid orderings, the sequence of
return values (and the final cell) under the `atomic` backend equals
that under the `plain` (`Cell`) backend. -/
theorem mode_transparency (ptrBits : Nat) (s : Scalar)
    (init : s.carrier ptrBits) (ops : List (Op (s.carrier ptrBits)))
    (h : ∀ op ∈ ops, Op.valid op = true) :
    run_program Mode.atomic init ops = run_program Mode.plain init ops := by
  unfold run_program
  have hn : new Mode.atomic init = new Mode.plain init := rfl
  rw [hn]
  exact run_mode_indep _ ops h

theorem mode_transparency_witness :
    (∀ op ∈ sample_ops, Op.valid op = true) ∧
    run_program Mode.atomic (5 : Fin (2 ^ 8)) sample_ops =
      run_program Mode.plain (5 : Fin (2 ^ 8)) sample_ops :=
  ⟨by decide, mode_transparency 64 Scalar.u8 5 sample_ops (by decide)⟩

/-- C2: construct/load round-trip — for every supported scalar type,
both backend modes, every representable value `v` and every load-valid
ordering, `load` on a cell freshly built by `new v` returns `v`. -/
theorem construct_load_roundtrip (ptrBits : Nat) (s : Scalar) (mode : Mode)
    (v : s.carrier ptrBits) (order : Ordering)
    (h : load_order_valid order = true) :
    load mode (new mode v) order = some v := by
  cases mode <;>
    simp [load, load_impl, new, new_impl, AtomicCell.load, AtomicCell.new,
      Cell.get, Cell.new, h]

theorem construct_load_roundtrip_witness :
    load_order_valid Ordering.SeqCst = true ∧
    load Mode.atomic (new Mode.atomic (255 : Fin (2 ^ 8))) Ordering.SeqCst =
      some 255 ∧
    load Mode.plain (new Mode.plain (255 : Fin (2 ^ 8))) Ordering.SeqCst =
      some 255 ∧
    load Mode.atomic
        (new Mode.atomic (⟨-(2 ^ 63), by decide⟩ : SignedInt 64))
        Ordering.SeqCst = some ⟨-(2 ^ 63), by decide⟩ ∧
    load Mode.plain
        (new Mode.plain (⟨2 ^ 63 - 1, by decide⟩ : SignedInt 64))
        Ordering.SeqCst = some ⟨2 ^ 63 - 1, by decide⟩ :=
  ⟨rfl,
   construct_load_roundtrip 64 Scalar.u8 Mode.atomic 255 Ordering.SeqCst rfl,
   construct_load_roundtrip 64 Scalar.u8 Mode.plain 255 Ordering.SeqCst rfl,
   construct_load_roundtrip 64 Scalar.i64 Mode.atomic ⟨-(2 ^ 63), by decide⟩
     Ordering.SeqCst rfl,
   construct_load_roundtrip 64 Scalar.i64 Mode.plain ⟨2 ^ 63 - 1, by decide⟩
     Ordering.SeqCst rfl⟩

/-- C3: store/load postcondition — for every supported scalar type, both
modes, any prior cell state and any value `v2`, a `store` with a
store-valid ordering followed by a `load` with a load-valid ordering
returns `v2`. -/
theorem store_then_load (ptrBits : Nat) (s : Scalar) (mode : Mode)
    (c : MaybeAtomicCell (s.carrier ptrBits)) (v2 : s.carrier ptrBits)
    (o o2 : Ordering)
    (h : store_order_valid o = true) (h2 : load_order_valid o2 = true) :
    (store mode c v2 o).bind (fun c2 => load mode c2 o2) = some v2 := by
  cases mode <;>
    simp [store, store_impl, load, load_impl, AtomicCell.store,
      AtomicCell.load, Cell.set, Cell.get, h, h2]

theorem store_then_load_witness :
    store_order_valid Ordering.Release = true ∧
    load_order_valid Ordering.Acquire = true ∧
    (store Mode.atomic (⟨11⟩ : MaybeAtomicCell (Fin (2 ^ 16))) 42
        Ordering.Release).bind
      (fun c2 => load Mode.atomic c2 Ordering.Acquire) = some 42 :=
  ⟨rfl, rfl,
   store_then_load 64 Scalar.u16 Mode.atomic ⟨11⟩ 42 Ordering.Release
     Ordering.Acquire rfl rfl⟩

/-- C4: swap postcondition — for every supported scalar type, both
modes and every value `v2`, `swap` returns the value the cell held
immediately before the call, and a subsequent load-valid `load` on the
resulting cell returns `v2`. -/
theorem swap_returns_old_then_load (ptrBits : Nat) (s : Scalar) (mode : Mode)
    (c : MaybeAtomicCell (s.carrier ptrBits)) (v2 : s.carrier ptrBits)
    (o o2 : Ordering) (h2 : load_order_valid o2 = true) :
    (swap mode c v2 o).1 = c.value ∧
      load mode (swap mode c v2 o).2 o2 = some v2 := by
  cases mode <;>
    simp [swap, swap_impl, load, load_impl, AtomicCell.swap, AtomicCell.load,
      Cell.replace, Cell.get, h2]

theorem swap_returns_old_then_load_witness :
    load_order_valid Ordering.Relaxed = true ∧
    ((swap Mode.plain (⟨true⟩ : MaybeAtomicCell Bool) false
        Ordering.SeqCst).1 =
      (⟨true⟩ : MaybeAtomicCell Bool).value ∧
      load Mode.plain
        (swap Mode.plain (⟨true⟩ : MaybeAtomicCell Bool) false
          Ordering.SeqCst).2 Ordering.Relaxed = some false) :=
  ⟨rfl,
   swap_returns_old_then_load 64 Scalar.bool Mode.plain ⟨true⟩ false
     Ordering.SeqCst Ordering.Relaxed rfl⟩

/-- C5: exclusive-access round-trip — for every supported scalar type
and both modes, writing `v` through the reference returned by `get_mut`
and then calling `load` with a load-valid ordering returns `v`. -/
theorem get_mut_write_then_load (ptrBits : Nat) (s : Scalar) (mode : Mode)
    (c : MaybeAtomicCell (s.carrier ptrBits)) (v : s.carrier ptrBits)
    (order : Ordering) (h : load_order_valid order = true) :
    load mode (get_mut_write mode c v) order = some v := by
  cases mode <;>
    simp [load, load_impl, get_mut_write, AtomicCell.load,
      AtomicCell.get_mut_write, Cell.get, Cell.get_mut_write, h]

theorem get_mut_write_then_load_witness :
    load_order_valid Ordering.Acquire = true ∧
    load Mode.atomic
      (get_mut_write Mode.atomic (⟨0⟩ : MaybeAtomicCell (Fin (2 ^ 32))) 77)
      Ordering.Acquire = some 77 :=
  ⟨rfl,
   get_mut_write_then_load 64 Scalar.u32 Mode.atomic ⟨0⟩ 77 Ordering.Acquire
     rfl⟩

theorem runOp_load_valid {α : Type} (mode : Mode) (c : MaybeAtomicCell α)
    (o : Ordering) (h : load_order_valid o = true) :
    runOp mode c (Op.load o) = some (some c.value, c) := by
  cases mode <;>
    simp [runOp, load_impl, AtomicCell.load, Cell.get, h]

/-- C6: load idempotence — for every supported scalar type and both
modes, any number of `load` calls with load-valid orderings and no
intervening mutation all return the currently held value and leave the
cell unchanged. -/
theorem load_idempotent (ptrBits : Nat) (s : Scalar) (mode : Mode)
    (c : MaybeAtomicCell (s.carrier ptrBits)) (orders : List Ordering)
    (h : ∀ o ∈ orders, load_order_valid o = true) :
    run mode c (orders.map Op.load) =
      some (orders.map fun _ => some c.value, c) := by
  induction orders with
  | nil => rfl
  | cons o os ih =>
    have ho : load_order_valid o = true := h o (List.mem_cons_self o os)
    have hos : ∀ x ∈ os, load_order_valid x = true := fun x hx =>
      h x (List.mem_cons_of_mem o hx)
    simp [run, runOp_load_valid mode c o ho, ih hos]

theorem load_idempotent_witness :
    (∀ o ∈ [Ordering.Relaxed, Ordering.SeqCst, Ordering.Acquire],
      load_order_valid o = true) ∧
    run Mode.atomic (⟨9⟩ : MaybeAtomicCell (Fin (2 ^ 64)))
        ([Ordering.Relaxed, Ordering.SeqCst, Ordering.Acquire].map Op.load) =
      some ([Ordering.Relaxed, Ordering.SeqCst, Ordering.Acquire].map
        fun _ => some (⟨9⟩ : MaybeAtomicCell (Fin (2 ^ 64))).value,
        ⟨9⟩) :=
  ⟨by decide,
   load_idempotent 64 Scalar.u64 Mode.atomic ⟨9⟩
     [Ordering.Relaxed, Ordering.SeqCst, Ordering.Acquire] (by decide)⟩

/-- C7: invalid-ordering failure in atomic mode — under the `atomic`
backend, `load` panics exactly on orderings invalid for loads and
`store` panics exactly on orderings invalid for stores, synchronously at
the call; `swap` and the `get_mut` accesses never fail, so these two
checks are the only failure surface. -/
theorem atomic_invalid_ordering_panics (ptrBits : Nat) (s : Scalar)
    (c : MaybeAtomicCell (s.carrier ptrBits)) (v : s.carrier ptrBits)
    (order : Ordering) :
    (load Mode.atomic c order = none ↔ load_order_valid order = false) ∧
    (store Mode.atomic c v order = none ↔ store_order_valid order = false) ∧
    runOp Mode.atomic c (Op.swap v order) ≠ none ∧
    runOp Mode.atomic c Op.get_mut_read ≠ none ∧
    runOp Mode.atomic c (Op.get_mut_write v) ≠ none := by
  cases order <;>
    simp [load, load_impl, store, store_impl, runOp, swap_impl,
      AtomicCell.load, AtomicCell.store, AtomicCell.swap, load_order_valid,
      store_order_valid]

/-- C8: plain-mode ordering noninterference — under the `plain` backend
every operation gives the same return value and resulting cell state for
any two ordering arguments (valid or not), and never rejects an
ordering. -/
theorem plain_ordering_noninterference (ptrBits : Nat) (s : Scalar)
    (c : MaybeAtomicCell (s.carrier ptrBits)) (v : s.carrier ptrBits)
    (o1 o2 : Ordering) :
    runOp Mode.plain c (Op.load o1) = runOp Mode.plain c (Op.load o2) ∧
    runOp Mode.plain c (Op.store v o1) = runOp Mode.plain c (Op.store v o2) ∧
    runOp Mode.plain c (Op.swap v o1) = runOp Mode.plain c (Op.swap v o2) ∧
    (runOp Mode.plain c (Op.load o1)).isSome = true ∧
    (runOp Mode.plain c (Op.store v o1)).isSome = true ∧
    (runOp Mode.plain c (Op.swap v o1)).isSome = true := by
  simp [runOp, load_impl, store_impl, swap_impl, Cell.get, Cell.set,
    Cell.replace]

theorem runOp_plain_isSome {α : Type} (c : MaybeAtomicCell α) (op : Op α) :
    (runOp Mode.plain c op).isSome = true := by
  cases op <;>
    simp [runOp, load_impl, store_impl, swap_impl, Cell.get, Cell.set,
      Cell.replace]

theorem run_plain_ne_none {α : Type} (c : MaybeAtomicCell α)
    (ops : List (Op α)) : run Mode.plain c ops ≠ none := by
  induction ops generalizing c with
  | nil => simp [run]
  | cons op ops ih =>
    obtain ⟨r, hr⟩ := Option.isSome_iff_exists.mp (runOp_plain_isSome c op)
    cases hrun : run Mode.plain r.2 ops with
    | none => exact absurd hrun (ih r.2)
    | some q => simp [run, hr, hrun]

/-- C9: totality of the non-ordering-dependent surface — `new` always
succeeds in either mode, the `get_mut` accesses never fail in either
mode, and under the `plain` backend every operation sequence completes
without failure for all inputs and orderings. -/
theorem non_ordering_surface_total (ptrBits : Nat) (s : Scalar) (mode : Mode)
    (v : s.carrier ptrBits) (c : MaybeAtomicCell (s.carrier ptrBits))
    (ops : List (Op (s.carrier ptrBits))) :
    run_program mode v [] = some ([], new mode v) ∧
    run_program Mode.plain v ops ≠ none ∧
    runOp mode c Op.get_mut_read ≠ none ∧
    runOp mode c (Op.get_mut_write v) ≠ none := by
  refine ⟨rfl, run_plain_ne_none (new Mode.plain v) ops, ?_, ?_⟩ <;>
    cases mode <;> simp [runOp]

/-- C10: plain-mode swap decomposition — under the `plain` backend,
`swap c v order` returns what `load c order` returns and leaves the cell
exactly as `store c v order` leaves it, with no other effect. -/
theorem plain_swap_decomposition (ptrBits : Nat) (s : Scalar)
    (c : MaybeAtomicCell (s.carrier ptrBits)) (v : s.carrier ptrBits)
    (order : Ordering) :
    some (swap Mode.plain c v order).1 = load Mode.plain c order ∧
    some (swap Mode.plain c v order).2 = store Mode.plain c v order := by
  simp [swap, swap_impl, load, load_impl, store, store_impl, Cell.replace,
    Cell.get, Cell.set]

end MaybeAtomic
